import Mathlib

/-!
Verification of the documentation-crawler core of `crawl_documentation.py`.

The Python source is shallowly embedded below:
* `crawlLoop` / `crawl_documentation` model the `while` loop of
  `crawl_documentation` (lines 242-278), with the network fetch
  (`download_html`) and the LLM extraction (`extract_next_link`) passed in as
  function parameters, and an extra ghost field `fetched` recording every URL
  passed to the fetcher, in order.
* `extractGo` / `extract_next_link` model the retry loop of
  `extract_next_link` (lines 131-201); the LLM backend is a function from the
  attempt index to an `OracleResponse`, and the outcome records the number of
  attempts made and the list of backoff waits (the arguments of `time.sleep`).
* `parseResp` models the response-parsing part of `extract_next_link`
  (lines 139-182): strip, sentinel check, quote stripping, `urljoin` and the
  duplicate-path-segment normalization.
* `urlsplitM`, `urlparseM`, `urlunsplitM`, `urlunparseM`, `urljoinM` model the
  CPython `urllib.parse` functions used by the source.  The model is
  character-exact for ASCII input; Python-specific Unicode behaviour
  (Unicode whitespace in `str.strip`, one-to-many `str.upper`, and the
  `ValueError` raised by `urlsplit` on bracketed hosts) is out of scope and
  excluded by explicit hypotheses where it could matter.

Strings are modelled as `List Char` in the parsing layer (Python string ops
are index/character based) and as `String` in the crawl loop, where URLs are
only compared for equality.
-/

namespace CrawlDoc

/-! ### Python string primitives (ASCII fragment) -/

/-- Whitespace stripped by Python `str.strip()` (ASCII part). -/
def pyWs (c : Char) : Bool :=
  c = ' ' ∨ c = '\t' ∨ c = '\n' ∨ c = '\x0d' ∨ c = '\x0b' ∨ c = '\x0c'

/-- Python `s.strip(chars)`: drop characters satisfying `p` from both ends. -/
def stripBoth (p : Char → Bool) (l : List Char) : List Char :=
  (((l.dropWhile p).reverse.dropWhile p)).reverse

/-- Python `str.strip()` (no argument). -/
def pyStrip (l : List Char) : List Char := stripBoth pyWs l

/-- Python `str.upper()` (ASCII part). -/
def upperAscii (c : Char) : Char :=
  if 'a' ≤ c ∧ c ≤ 'z' then Char.ofNat (c.toNat - 32) else c

def pyUpper (l : List Char) : List Char := l.map upperAscii

/-- `startsWithL hay pre`: `pre` is a leading run of `hay`. -/
def startsWithL : List Char → List Char → Bool
  | _, [] => true
  | [], _ :: _ => false
  | h :: t, n :: ns => h = n && startsWithL t ns

/-- Python `needle in hay`: contiguous-substring containment. -/
def containsL : List Char → List Char → Bool
  | [], needle => needle.isEmpty
  | hay@(_ :: t), needle => startsWithL hay needle || containsL t needle

/-- Split at the first occurrence of `c`: `some (before, after)`, both
excluding the separator, or `none` when `c` does not occur. -/
def splitAtFirst (c : Char) : List Char → Option (List Char × List Char)
  | [] => none
  | h :: t =>
    if h = c then some ([], t)
    else (splitAtFirst c t).map (fun p => (h :: p.1, p.2))

/-- Split at the last occurrence of `c`. -/
def splitAtLast (c : Char) (l : List Char) : Option (List Char × List Char) :=
  (splitAtFirst c l.reverse).map (fun p => (p.2.reverse, p.1.reverse))

/-- Python `s.split(sep)` for a one-character separator (never empty). -/
def splitOnChar (c : Char) : List Char → List (List Char)
  | [] => [[]]
  | h :: t =>
    if h = c then [] :: splitOnChar c t
    else
      match splitOnChar c t with
      | [] => [[h]]
      | x :: xs => (h :: x) :: xs

/-- Python `'/'.join(parts)`. -/
def joinSlash : List (List Char) → List Char
  | [] => []
  | [x] => x
  | x :: y :: xs => x ++ '/' :: joinSlash (y :: xs)

/-! ### Crawl controller (`crawl_documentation`, lines 242-278)

The spec's stop states for the controller state machine. -/

inductive StopReason where
  | stoppedComplete
  | stoppedCycle
  | stoppedLimit
  | stoppedFetchError
deriving DecidableEq, Repr

structure CrawlResult where
  visited : List String
  fetched : List String
  reason : StopReason
deriving DecidableEq, Repr

/-- One-to-one image of the `while` loop of `crawl_documentation`:
`fuel = max_pages - len(visited)` encodes the `len(visited) < max_pages`
conjunct of the loop condition, `current = ""` its `current_url` (truthiness)
conjunct.  `fetch` models `download_html` (`none` = request exception,
`some ""` = empty body; both hit the `if not html` break), `extract` models
`extract_next_link` (`none` or `some ""` hit the `else` branch of
`if next_url`).  `fetched` is a ghost log of the fetcher's arguments. -/
def crawlLoop (fetch : String → Option String) (extract : String → String → Option String) :
    Nat → String → List String → List String → CrawlResult
  | 0, _, visited, fetched => ⟨visited, fetched, .stoppedLimit⟩
  | fuel + 1, current, visited, fetched =>
    if current = "" then ⟨visited, fetched, .stoppedComplete⟩
    else if current ∈ visited then ⟨visited, fetched, .stoppedCycle⟩
    else
      match fetch current with
      | none => ⟨visited ++ [current], fetched ++ [current], .stoppedFetchError⟩
      | some html =>
        if html = "" then ⟨visited ++ [current], fetched ++ [current], .stoppedFetchError⟩
        else
          match extract html current with
          | none => ⟨visited ++ [current], fetched ++ [current], .stoppedComplete⟩
          | some next =>
            if next = "" then ⟨visited ++ [current], fetched ++ [current], .stoppedComplete⟩
            else crawlLoop fetch extract fuel next (visited ++ [current]) (fetched ++ [current])

/-- `crawl_documentation(start_url, max_pages)` with the two effectful
collaborators abstracted. -/
def crawl_documentation (fetch : String → Option String)
    (extract : String → String → Option String) (startUrl : String) (maxPages : Nat) :
    CrawlResult :=
  crawlLoop fetch extract maxPages startUrl [] []

/-! ### Retry wrapper (`extract_next_link`, lines 131-201) -/

/-- Outcome of one `llm.invoke` call, classified the way the `except` handler
classifies it: a successful response text, a rate-limit-class exception
(`"rate_limit" in str(e).lower() or "429" in str(e)`), or any other
exception. -/
inductive OracleResponse where
  | ok (text : List Char)
  | rateLimited
  | otherError
deriving DecidableEq, Repr

structure ExtractOutcome where
  result : Option (List Char)
  attempts : Nat
  waits : List Nat
deriving DecidableEq, Repr

/-- The `for attempt in range(max_retries)` loop.  `backend n` is the result
of the `n`-th `llm.invoke` call, `attempt` the current loop index, `fuel` the
remaining iterations (`max_retries - attempt`).  `attempts` counts backend
invocations; `waits` logs the `time.sleep(wait_time)` arguments
(`retry_delay * (attempt + 1)`). -/
def extractGo (parse : List Char → List Char → Option (List Char))
    (backend : Nat → OracleResponse) (url : List Char) (maxRetries retryDelay : Nat) :
    Nat → Nat → ExtractOutcome
  | _, 0 => ⟨none, 0, []⟩
  | attempt, fuel + 1 =>
    match backend attempt with
    | .ok text => ⟨parse text url, 1, []⟩
    | .rateLimited =>
      if attempt < maxRetries - 1 then
        let rest := extractGo parse backend url maxRetries retryDelay (attempt + 1) fuel
        ⟨rest.result, rest.attempts + 1, retryDelay * (attempt + 1) :: rest.waits⟩
      else ⟨none, 1, []⟩
    | .otherError => ⟨none, 1, []⟩

/-! ### `urllib.parse` model (CPython `Lib/urllib/parse.py`)

Only the functions the source calls: `urlparse`, `urlunparse`, `urljoin`
(and the `urlsplit`/`urlunsplit` they are built on), with
`allow_fragments=True` throughout, as in the source. -/

structure UrlSplitRes where
  scheme : List Char
  netloc : List Char
  path : List Char
  query : List Char
  fragment : List Char
deriving DecidableEq, Repr

structure UrlParseRes where
  scheme : List Char
  netloc : List Char
  path : List Char
  params : List Char
  query : List Char
  fragment : List Char
deriving DecidableEq, Repr

/-- `_WHATWG_C0_CONTROL_OR_SPACE` membership. -/
def c0OrSpace (c : Char) : Bool := c.toNat ≤ 32

/-- `_UNSAFE_URL_BYTES_TO_REMOVE` membership (`"\t"`, `"\r"`, `"\n"`). -/
def badByte (c : Char) : Bool := c = '\t' ∨ c = '\x0d' ∨ c = '\n'

/-- `url.lstrip(_WHATWG_C0_CONTROL_OR_SPACE)` followed by removal of the
unsafe bytes, as done to the `url` argument of `urlsplit`. -/
def cleanUrl (l : List Char) : List Char :=
  (l.dropWhile c0OrSpace).filter (fun c => !badByte c)

/-- The same for the `scheme` (default) argument, which is stripped on both
ends. -/
def cleanScheme (l : List Char) : List Char :=
  (stripBoth c0OrSpace l).filter (fun c => !badByte c)

def isSchemeChar (c : Char) : Bool := c.isAlpha || c.isDigit || c = '+' || c = '-' || c = '.'

/-- The scheme-detection step of `urlsplit`: the text before the first `':'`
is a scheme iff it is nonempty, starts with an ASCII letter and consists of
scheme characters; it is then lowercased. -/
def splitScheme (url : List Char) : Option (List Char) × List Char :=
  match splitAtFirst ':' url with
  | none => (none, url)
  | some (pre, post) =>
    if !pre.isEmpty && (pre.headD ' ').isAlpha && pre.all isSchemeChar then
      (some (pre.map Char.toLower), post)
    else (none, url)

def netlocChar (c : Char) : Bool := !(c = '/' || c = '?' || c = '#')

/-- `_splitnetloc`, applied only when the remaining url starts with `"//"`.
The bracketed-host `ValueError`s of CPython are not modelled (the model is
total); claims touching arbitrary hosts carry bracket-freedom hypotheses. -/
def splitNetloc (url : List Char) : List Char × List Char :=
  match url with
  | '/' :: '/' :: rest => (rest.takeWhile netlocChar, rest.dropWhile netlocChar)
  | _ => ([], url)

/-- `url.partition('#')` guarded by `'#' in url` (no-op difference). -/
def splitFrag (url : List Char) : List Char × List Char :=
  match splitAtFirst '#' url with
  | some (a, b) => (a, b)
  | none => (url, [])

def splitQuery (url : List Char) : List Char × List Char :=
  match splitAtFirst '?' url with
  | some (a, b) => (a, b)
  | none => (url, [])

/-- `urlsplit(url, scheme=default, allow_fragments=True)`. -/
def urlsplitM (url0 defScheme : List Char) : UrlSplitRes :=
  let url1 := cleanUrl url0
  let sp := splitScheme url1
  let scheme := sp.1.getD (cleanScheme defScheme)
  let nl := splitNetloc sp.2
  let fr := splitFrag nl.2
  let q := splitQuery fr.1
  ⟨scheme, nl.1, q.1, q.2, fr.2⟩

def usesParams : List (List Char) :=
  [[], "ftp".data, "hdl".data, "prms".data, "http".data, "imap".data, "https".data,
   "shttp".data, "rtsp".data, "rtspu".data, "sip".data, "sips".data, "mms".data,
   "sftp".data, "tel".data]

def usesRelative : List (List Char) :=
  [[], "ftp".data, "http".data, "gopher".data, "nntp".data, "imap".data, "wais".data,
   "file".data, "https".data, "shttp".data, "mms".data, "prospero".data, "rtsp".data,
   "rtspu".data, "sftp".data, "svn".data, "svn+ssh".data, "ws".data, "wss".data]

def usesNetloc : List (List Char) :=
  [[], "ftp".data, "http".data, "gopher".data, "nntp".data, "telnet".data, "imap".data,
   "wais".data, "file".data, "mms".data, "https".data, "shttp".data, "snews".data,
   "prospero".data, "rtsp".data, "rtspu".data, "rsync".data, "svn".data, "svn+ssh".data,
   "sftp".data, "nfs".data, "git".data, "git+ssh".data, "ws".data, "wss".data,
   "itms-services".data]

/-- `_splitparams`: split `';params'` off the last path segment (or off the
whole path when it has no `'/'`). -/
def splitparamsM (p : List Char) : List Char × List Char :=
  if '/' ∈ p then
    match splitAtLast '/' p with
    | some (pre, lastSeg) =>
      match splitAtFirst ';' lastSeg with
      | some (a, b) => (pre ++ '/' :: a, b)
      | none => (p, [])
    | none => (p, [])
  else
    match splitAtFirst ';' p with
    | some (a, b) => (a, b)
    | none => (p, [])

/-- `urlparse(url, scheme=default, allow_fragments=True)`. -/
def urlparseM (url defScheme : List Char) : UrlParseRes :=
  let s := urlsplitM url defScheme
  let pp := if s.scheme ∈ usesParams ∧ ';' ∈ s.path then splitparamsM s.path else (s.path, [])
  ⟨s.scheme, s.netloc, pp.1, pp.2, s.query, s.fragment⟩

/-- `urlunsplit`. -/
def urlunsplitM (r : UrlSplitRes) : List Char :=
  let url := r.path
  let url :=
    if r.netloc = [] ∧ ¬(url ≠ [] ∧ url.take 2 = "//".data) then url
    else
      let url := if url ≠ [] ∧ url.take 1 ≠ "/".data then '/' :: url else url
      "//".data ++ r.netloc ++ url
  let url := if r.scheme = [] then url else r.scheme ++ ':' :: url
  let url := if r.query = [] then url else url ++ '?' :: r.query
  if r.fragment = [] then url else url ++ '#' :: r.fragment

/-- `urlunparse`. -/
def urlunparseM (r : UrlParseRes) : List Char :=
  let path := if r.params = [] then r.path else r.path ++ ';' :: r.params
  urlunsplitM ⟨r.scheme, r.netloc, path, r.query, r.fragment⟩

/-- `segments[1:-1] = filter(None, segments[1:-1])`: drop empty interior
elements, keeping the first and last. -/
def midFilter : List (List Char) → List (List Char)
  | [] => []
  | [x] => [x]
  | x :: xs => if x = [] then midFilter xs else x :: midFilter xs

def filterMiddle : List (List Char) → List (List Char)
  | [] => []
  | [x] => [x]
  | x :: xs => x :: midFilter xs

/-- The `'..'`/`'.'` resolution loop of `urljoin` (`resolved_path`); the
`IndexError` of `pop()` on an empty list is `pass`ed, i.e. `dropLast` on
`[]`. -/
def resolveSegs (acc : List (List Char)) : List (List Char) → List (List Char)
  | [] => acc
  | s :: rest =>
    if s = "..".data then resolveSegs acc.dropLast rest
    else if s = ".".data then resolveSegs acc rest
    else resolveSegs (acc ++ [s]) rest

/-- `urljoin(base, url)`. -/
def urljoinM (base url : List Char) : List Char :=
  if base = [] then url
  else if url = [] then base
  else
    let b := urlparseM base []
    let u := urlparseM url b.scheme
    if u.scheme ≠ b.scheme ∨ u.scheme ∉ usesRelative then url
    else if u.scheme ∈ usesNetloc ∧ u.netloc ≠ [] then urlunparseM u
    else
      let netloc := if u.scheme ∈ usesNetloc then b.netloc else u.netloc
      if u.path = [] ∧ u.params = [] then
        urlunparseM ⟨u.scheme, netloc, b.path, b.params,
          (if u.query = [] then b.query else u.query), u.fragment⟩
      else
        let baseParts := splitOnChar '/' b.path
        let baseParts := if baseParts.getLast? = some [] then baseParts else baseParts.dropLast
        let segments :=
          if u.path.take 1 = "/".data then splitOnChar '/' u.path
          else filterMiddle (baseParts ++ splitOnChar '/' u.path)
        let resolved := resolveSegs [] segments
        let resolved :=
          if segments.getLast? = some (".".data) ∨ segments.getLast? = some ("..".data) then
            resolved ++ [[]]
          else resolved
        let p := joinSlash resolved
        urlunparseM ⟨u.scheme, netloc, (if p = [] then "/".data else p), u.params, u.query,
          u.fragment⟩

/-! ### The source's own URL normalization and response parsing -/

/-- The body of the `for part in path_parts` loop (lines 161-164): a part is
appended iff the accumulator is empty, or its last element differs from the
part, or the part is the empty string. -/
def normLoop (acc : List (List Char)) : List (List Char) → List (List Char)
  | [] => acc
  | x :: xs =>
    if acc = [] ∨ acc.getLast? ≠ some x ∨ x = [] then normLoop (acc ++ [x]) xs
    else normLoop acc xs

/-- Lines 156-174: re-parse the absolute URL, collapse duplicate consecutive
path segments, re-assemble. -/
def normalizeUrl (u : List Char) : List Char :=
  let p := urlparseM u []
  let nparts := normLoop [] (splitOnChar '/' p.path)
  urlunparseM ⟨p.scheme, p.netloc, joinSlash nparts, p.params, p.query, p.fragment⟩

/-- §4.4's `resolve(rawHref, baseUrl)`: `urljoin(current_url, answer)` (line
153) followed by `normalizeUrl` (lines 156-174). -/
def resolvePy (raw base : List Char) : List Char :=
  normalizeUrl (urljoinM base raw)

def sentinel : List Char := "NO_NEXT_LINK".data

/-- Lines 139-182, the parsing of one successful LLM response `text`:
strip; case-insensitive substring test for the sentinel; strip `'"'`, then
`"'"`, then whitespace; empty means no link; otherwise resolve against
`current_url`. -/
def parseResp (text url : List Char) : Option (List Char) :=
  let answer := pyStrip text
  if containsL (pyUpper answer) sentinel then none
  else
    let answer2 := pyStrip (stripBoth (fun c => c = '\'') (stripBoth (fun c => c = '"') answer))
    if answer2 = [] then none
    else some (resolvePy answer2 url)

/-- `extract_next_link(html, current_url, llm)` with the LLM abstracted as
`backend`; `max_retries = 3`, `retry_delay = 3` as in lines 132-133. -/
def extract_next_link (backend : Nat → OracleResponse) (url : List Char) : ExtractOutcome :=
  extractGo parseResp backend url 3 3 0 3

/-! ### Content truncation (lines 78-85) and the prompt that carries it -/

def truncMarker : List Char := "\n\n[... middle content truncated ...]\n\n".data

/-- Lines 79-85: `html[:15000] + marker + html[-15000:]` when
`len(html) > 30000`, else `html` unchanged. -/
def truncateHtml (html : List Char) : List Char :=
  if 30000 < html.length then
    html.take 15000 ++ truncMarker ++ html.drop (html.length - 15000)
  else html

def userPromptPre : List Char :=
  "Here is the HTML from the current documentation page:\n\n".data

def userPromptPost : List Char :=
  "\n\nWhat is the href of the NEXT page link? Return only the URL path or \"NO_NEXT_LINK\".".data

/-- The `HumanMessage` content (lines 123-127): the truncated page content is
embedded verbatim between the two fixed prompt pieces. -/
def buildUserMsg (html : List Char) : List Char :=
  userPromptPre ++ truncateHtml html ++ userPromptPost

/-! ### Controller lemmas -/

/-- The visited list stays duplicate-free: a URL is appended only after the
`current_url in visited_urls` guard failed. -/
lemma crawlLoop_visited_nodup (fetch : String → Option String)
    (extract : String → String → Option String) :
    ∀ (fuel : Nat) (current : String) (visited fetched : List String),
      visited.Nodup → (crawlLoop fetch extract fuel current visited fetched).visited.Nodup := by
  intro fuel
  induction fuel with
  | zero => intro c v f h; simpa [crawlLoop] using h
  | succ n ih =>
    intro c v f h
    by_cases h1 : c = ""
    · simpa [crawlLoop, h1] using h
    by_cases h2 : c ∈ v
    · simpa [crawlLoop, h1, h2] using h
    have hv : (v ++ [c]).Nodup := by
      simp [List.nodup_append, List.disjoint_singleton, h, h2]
    cases hf : fetch c with
    | none => simpa [crawlLoop, h1, h2, hf] using hv
    | some html =>
      by_cases h3 : html = ""
      · simpa [crawlLoop, h1, h2, hf, h3] using hv
      cases he : extract html c with
      | none => simpa [crawlLoop, h1, h2, hf, h3, he] using hv
      | some next =>
        by_cases h4 : next = ""
        · simpa [crawlLoop, h1, h2, hf, h3, he, h4] using hv
        · have := ih next (v ++ [c]) (f ++ [c]) hv
          simpa [crawlLoop, h1, h2, hf, h3, he, h4] using this

/-- The loop adds at most `fuel` entries to `visited`. -/
lemma crawlLoop_length_le (fetch : String → Option String)
    (extract : String → String → Option String) :
    ∀ (fuel : Nat) (current : String) (visited fetched : List String),
      (crawlLoop fetch extract fuel current visited fetched).visited.length ≤
        visited.length + fuel := by
  intro fuel
  induction fuel with
  | zero => intro c v f; simp [crawlLoop]
  | succ n ih =>
    intro c v f
    by_cases h1 : c = ""
    · simp [crawlLoop, h1]; try omega
    by_cases h2 : c ∈ v
    · simp [crawlLoop, h1, h2]; try omega
    cases hf : fetch c with
    | none => simp [crawlLoop, h1, h2, hf]; try omega
    | some html =>
      by_cases h3 : html = ""
      · simp [crawlLoop, h1, h2, hf, h3]; try omega
      cases he : extract html c with
      | none => simp [crawlLoop, h1, h2, hf, h3, he]; try omega
      | some next =>
        by_cases h4 : next = ""
        · simp [crawlLoop, h1, h2, hf, h3, he, h4]; try omega
        · have := ih next (v ++ [c]) (f ++ [c])
          simp only [List.length_append, List.length_singleton] at this
          simp [crawlLoop, h1, h2, hf, h3, he, h4]
          omega

/-- `StoppedLimit` is reported exactly when the fuel (the page budget) ran
out, in which case `visited` grew by exactly `fuel`. -/
lemma crawlLoop_limit_length (fetch : String → Option String)
    (extract : String → String → Option String) :
    ∀ (fuel : Nat) (current : String) (visited fetched : List String),
      (crawlLoop fetch extract fuel current visited fetched).reason = .stoppedLimit →
      (crawlLoop fetch extract fuel current visited fetched).visited.length =
        visited.length + fuel := by
  intro fuel
  induction fuel with
  | zero => intro c v f _; simp [crawlLoop]
  | succ n ih =>
    intro c v f
    by_cases h1 : c = ""
    · simp [crawlLoop, h1]
    by_cases h2 : c ∈ v
    · simp [crawlLoop, h1, h2]
    cases hf : fetch c with
    | none => simp [crawlLoop, h1, h2, hf]
    | some html =>
      by_cases h3 : html = ""
      · simp [crawlLoop, h1, h2, hf, h3]
      cases he : extract html c with
      | none => simp [crawlLoop, h1, h2, hf, h3, he]
      | some next =>
        by_cases h4 : next = ""
        · simp [crawlLoop, h1, h2, hf, h3, he, h4]
        · intro h
          have hrec : (crawlLoop fetch extract n next (v ++ [c]) (f ++ [c])).reason =
              .stoppedLimit := by
            simpa [crawlLoop, h1, h2, hf, h3, he, h4] using h
          have := ih next (v ++ [c]) (f ++ [c]) hrec
          simp only [List.length_append, List.length_singleton] at this
          simp [crawlLoop, h1, h2, hf, h3, he, h4, this]
          omega

/-! ### Claim theorems: the crawl controller -/

/-- C1: if the URL about to be processed (nonempty, page budget not yet
exhausted) already appears in `visited`, the loop stops with `StoppedCycle`,
performing no further fetch (`fetched` unchanged) and appending nothing; and
for every run the returned visited list has no duplicate entries. -/
theorem C1_cycle_guard_and_nodup (fetch : String → Option String)
    (extract : String → String → Option String) :
    (∀ (fuel : Nat) (current : String) (visited fetched : List String),
      current ≠ "" → current ∈ visited →
      crawlLoop fetch extract (fuel + 1) current visited fetched =
        ⟨visited, fetched, .stoppedCycle⟩) ∧
    ∀ (startUrl : String) (maxPages : Nat),
      (crawl_documentation fetch extract startUrl maxPages).visited.Nodup := by
  constructor
  · intro fuel current visited fetched h1 h2
    simp [crawlLoop, h1, h2]
  · intro s m
    exact crawlLoop_visited_nodup fetch extract m s [] [] (by simp)

/-- Witness for C1 at concrete inputs. -/
theorem C1_cycle_guard_and_nodup_witness :
    crawlLoop (fun _ => some "H") (fun _ _ => some "A") 1 "A" ["A"] ["A"] =
      ⟨["A"], ["A"], .stoppedCycle⟩ ∧
    (crawl_documentation (fun _ => some "H") (fun _ _ => some "A") "A" 5).visited.Nodup :=
  ⟨(C1_cycle_guard_and_nodup _ _).1 0 "A" ["A"] ["A"] (by decide) (by decide),
   (C1_cycle_guard_and_nodup (fun _ => some "H") (fun _ _ => some "A")).2 "A" 5⟩

/-- C2, counterexample to the stated biconditional: with `maxPages = 1` and an
extractor that reports no next link, the run returns exactly `maxPages`
visited URLs yet the stopping cause is `StoppedComplete`, not the cap. -/
theorem C2_cap_cex :
    (crawl_documentation (fun _ => some "H") (fun _ _ => none) "A" 1).visited.length = 1 ∧
    (crawl_documentation (fun _ => some "H") (fun _ _ => none) "A" 1).reason ≠
      .stoppedLimit := by
  constructor
  · decide
  · decide

/-- C2 (amended): `len(visited) ≤ maxPages` for every run, and when the cap
is the stopping cause (`StoppedLimit`) the length is exactly `maxPages`; the
converse direction of the original claim is false (see the counterexample). -/
theorem C2_cap_amended (fetch : String → Option String)
    (extract : String → String → Option String) (startUrl : String) (maxPages : Nat) :
    (crawl_documentation fetch extract startUrl maxPages).visited.length ≤ maxPages ∧
    ((crawl_documentation fetch extract startUrl maxPages).reason = .stoppedLimit →
      (crawl_documentation fetch extract startUrl maxPages).visited.length = maxPages) := by
  constructor
  · have := crawlLoop_length_le fetch extract maxPages startUrl [] []
    simpa [crawl_documentation] using this
  · intro h
    have := crawlLoop_limit_length fetch extract maxPages startUrl [] [] h
    simpa [crawl_documentation] using this

/-- Witness for C2 (amended): a run that stops on the cap with exactly
`maxPages` pages. -/
theorem C2_cap_amended_witness :
    (crawl_documentation (fun _ => some "H") (fun _ c => some (c ++ "x")) "A" 2).visited.length
      ≤ 2 ∧
    (crawl_documentation (fun _ => some "H") (fun _ c => some (c ++ "x")) "A" 2).visited.length
      = 2 :=
  ⟨(C2_cap_amended (fun _ => some "H") (fun _ c => some (c ++ "x")) "A" 2).1,
   (C2_cap_amended (fun _ => some "H") (fun _ c => some (c ++ "x")) "A" 2).2 (by decide)⟩

/-- C7: when the fetch of the current URL fails (`download_html` returns
`None`), the loop stops at once with `StoppedFetchError`; the failing URL was
fetched exactly once (no retry), and the partial result is the previous
visited list with the failing URL appended, in discovery order. -/
theorem C7_fetch_failure_stops (fetch : String → Option String)
    (extract : String → String → Option String) (fuel : Nat) (current : String)
    (visited fetched : List String) (h1 : current ≠ "") (h2 : current ∉ visited)
    (h3 : fetch current = none) :
    crawlLoop fetch extract (fuel + 1) current visited fetched =
      ⟨visited ++ [current], fetched ++ [current], .stoppedFetchError⟩ := by
  simp [crawlLoop, h1, h2, h3]

/-- Witness for C7. -/
theorem C7_fetch_failure_stops_witness :
    crawlLoop (fun _ => none) (fun _ _ => none) 5 "B" ["A"] ["A"] =
      ⟨["A", "B"], ["A", "B"], .stoppedFetchError⟩ :=
  C7_fetch_failure_stops (fun _ => none) (fun _ _ => none) 4 "B" ["A"] ["A"]
    (by decide) (by decide) rfl

/-- C10: a fetch that succeeds with an empty body takes the same
`if not html` break as a failed fetch: the loop stops with the same
`StoppedFetchError`-shaped result, for every extractor (the extractor is
never consulted). -/
theorem C10_empty_body_like_failure (fetch : String → Option String)
    (extract : String → String → Option String) (fuel : Nat) (current : String)
    (visited fetched : List String) (h1 : current ≠ "") (h2 : current ∉ visited)
    (h3 : fetch current = some "") :
    crawlLoop fetch extract (fuel + 1) current visited fetched =
      ⟨visited ++ [current], fetched ++ [current], .stoppedFetchError⟩ := by
  simp [crawlLoop, h1, h2, h3]

/-- Witness for C10. -/
theorem C10_empty_body_like_failure_witness :
    crawlLoop (fun _ => some "") (fun _ _ => some "C") 5 "B" ["A"] ["A"] =
      ⟨["A", "B"], ["A", "B"], .stoppedFetchError⟩ :=
  C10_empty_body_like_failure (fun _ => some "") (fun _ _ => some "C") 4 "B" ["A"] ["A"]
    (by decide) (by decide) rfl

/-! ### Claim theorems: the retry wrapper -/

/-- C3: with `max_retries = 3` and `retry_delay = 3`, three consecutive
rate-limit failures produce exactly 3 attempts, exactly the backoff waits
`[3, 6]` (`retry_delay * (attempt+1)`), and the no-link result `none` —
regardless of what the backend would do on any later attempt, so a fourth
attempt never occurs. -/
theorem C3_retry_bound (backend : Nat → OracleResponse) (url : List Char)
    (h0 : backend 0 = .rateLimited) (h1 : backend 1 = .rateLimited)
    (h2 : backend 2 = .rateLimited) :
    extract_next_link backend url = ⟨none, 3, [3, 6]⟩ := by
  simp [extract_next_link, extractGo, h0, h1, h2]

/-- Witness for C3. -/
theorem C3_retry_bound_witness :
    extract_next_link (fun _ => .rateLimited) [] = ⟨none, 3, [3, 6]⟩ :=
  C3_retry_bound (fun _ => .rateLimited) [] rfl rfl rfl

/-- C8: every unrecovered extraction failure returns the no-link value `none`
— a non-rate-limit error on the first attempt, or rate-limit errors on all
three attempts — and the crawl loop reacts to `none` exactly as to a genuine
"no next link": it stops with `StoppedComplete` and the visited list built so
far, whatever the reason `none` was produced. -/
theorem C8_failure_equals_no_link (backend : Nat → OracleResponse) (url : List Char)
    (fetch : String → Option String) (extract : String → String → Option String)
    (fuel : Nat) (current html : String) (visited fetched : List String) :
    (backend 0 = .otherError → (extract_next_link backend url).result = none) ∧
    (backend 0 = .rateLimited → backend 1 = .rateLimited → backend 2 = .rateLimited →
      (extract_next_link backend url).result = none) ∧
    (current ≠ "" → current ∉ visited → fetch current = some html → html ≠ "" →
      extract html current = none →
      crawlLoop fetch extract (fuel + 1) current visited fetched =
        ⟨visited ++ [current], fetched ++ [current], .stoppedComplete⟩) := by
  refine ⟨?_, ?_, ?_⟩
  · intro h0
    simp [extract_next_link, extractGo, h0]
  · intro h0 h1 h2
    simp [extract_next_link, extractGo, h0, h1, h2]
  · intro h1 h2 h3 h4 h5
    simp [crawlLoop, h1, h2, h3, h4, h5]

/-- Witness for C8. -/
theorem C8_failure_equals_no_link_witness :
    (extract_next_link (fun _ => .otherError) []).result = none ∧
    (extract_next_link (fun _ => .rateLimited) ['u']).result = none ∧
    crawlLoop (fun _ => some "H") (fun _ _ => none) 5 "B" ["A"] ["A"] =
      ⟨["A", "B"], ["A", "B"], .stoppedComplete⟩ :=
  ⟨(C8_failure_equals_no_link (fun _ => .otherError) [] (fun _ => some "H")
      (fun _ _ => none) 4 "B" "H" ["A"] ["A"]).1 rfl,
   (C8_failure_equals_no_link (fun _ => .rateLimited) ['u'] (fun _ => some "H")
      (fun _ _ => none) 4 "B" "H" ["A"] ["A"]).2.1 rfl rfl rfl,
   (C8_failure_equals_no_link (fun _ => .otherError) [] (fun _ => some "H")
      (fun _ _ => none) 4 "B" "H" ["A"] ["A"]).2.2 (by decide) (by decide) rfl
      (by decide) rfl⟩

/-! ### Claim theorem: content truncation -/

/-- C9: when the page content exceeds the 30000-character budget, the text
embedded in the prompt is exactly the first 15000 characters, then the
truncation marker, then the last 15000 characters (both pieces really are a
15000-character leading and trailing run of the content); otherwise the
content is passed unchanged. -/
theorem C9_truncation (html : List Char) :
    (30000 < html.length →
      truncateHtml html =
        html.take 15000 ++ truncMarker ++ html.drop (html.length - 15000) ∧
      (html.take 15000).length = 15000 ∧
      (html.drop (html.length - 15000)).length = 15000 ∧
      html = html.take 15000 ++ (html.drop 15000).take (html.length - 30000) ++
        html.drop (html.length - 15000) ∧
      buildUserMsg html =
        userPromptPre ++
          (html.take 15000 ++ truncMarker ++ html.drop (html.length - 15000)) ++
          userPromptPost) ∧
    (html.length ≤ 30000 →
      truncateHtml html = html ∧
      buildUserMsg html = userPromptPre ++ html ++ userPromptPost) := by
  constructor
  · intro h
    have ht : truncateHtml html =
        html.take 15000 ++ truncMarker ++ html.drop (html.length - 15000) := by
      simp [truncateHtml, h]
    refine ⟨ht, ?_, ?_, ?_, ?_⟩
    · rw [List.length_take]; omega
    · rw [List.length_drop]; omega
    · have hn : 15000 + (html.length - 30000) = html.length - 15000 := by omega
      have e3 : (html.drop 15000).drop (html.length - 30000) =
          html.drop (html.length - 15000) := by
        rw [List.drop_drop, hn]
      symm
      rw [← e3, List.append_assoc, List.take_append_drop, List.take_append_drop]
    · rw [buildUserMsg, ht]
  · intro h
    have ht : truncateHtml html = html := by
      simp [truncateHtml]
      omega
    exact ⟨ht, by rw [buildUserMsg, ht]⟩

/-- Witness for C9: a 30001-character page is truncated (its tail piece is
the last 15000 characters, i.e. `drop 15001`), a 100-character page passes
unchanged. -/
theorem C9_truncation_witness :
    truncateHtml (List.replicate 30001 'a') =
      (List.replicate 30001 'a').take 15000 ++ truncMarker ++
        (List.replicate 30001 'a').drop ((List.replicate 30001 'a').length - 15000) ∧
    truncateHtml (List.replicate 100 'b') = List.replicate 100 'b' :=
  ⟨((C9_truncation (List.replicate 30001 'a')).1
      (by rw [List.length_replicate]; norm_num)).1,
   ((C9_truncation (List.replicate 100 'b')).2
      (by rw [List.length_replicate]; norm_num)).1⟩

/-! ### Containment lemmas for the sentinel check -/

lemma containsL_nil_needle (l : List Char) : containsL l [] = true := by
  cases l <;> simp [containsL, startsWithL]

lemma startsWithL_iff (s : List Char) :
    ∀ l, startsWithL l s = true ↔ ∃ v, l = s ++ v := by
  induction s with
  | nil => intro l; simp [startsWithL]
  | cons c cs ih =>
    intro l
    cases l with
    | nil => simp [startsWithL]
    | cons h t => simp [startsWithL, ih, Bool.and_eq_true, decide_eq_true_eq]

lemma containsL_iff (s : List Char) :
    ∀ l, containsL l s = true ↔ ∃ u v, l = u ++ s ++ v := by
  intro l
  induction l with
  | nil =>
    simp only [containsL, List.isEmpty_iff]
    constructor
    · rintro rfl; exact ⟨[], [], rfl⟩
    · rintro ⟨u, v, h⟩
      rcases List.append_eq_nil.mp (List.append_eq_nil.mp h.symm).1 with ⟨-, h2⟩
      exact h2
  | cons h t ih =>
    simp only [containsL, Bool.or_eq_true, startsWithL_iff, ih]
    constructor
    · rintro (⟨v, hv⟩ | ⟨u, v, hv⟩)
      · exact ⟨[], v, by simpa using hv⟩
      · exact ⟨h :: u, v, by simp [hv]⟩
    · rintro ⟨u, v, he⟩
      cases u with
      | nil => exact Or.inl ⟨v, by simpa using he⟩
      | cons u0 us =>
        right
        simp only [List.cons_append, List.cons.injEq] at he
        exact ⟨us, v, he.2⟩

lemma containsL_dropWhile (p : Char → Bool) (s : List Char)
    (hs : ∀ c ∈ s, p c = false) :
    ∀ l, containsL l s = true → containsL (l.dropWhile p) s = true := by
  intro l
  induction l with
  | nil => simp
  | cons h t ih =>
    intro hc
    by_cases hp : p h = true
    · rw [List.dropWhile_cons, if_pos hp]
      apply ih
      rcases Bool.or_eq_true _ _ |>.mp (by simpa [containsL] using hc) with hst | hin
      · cases s with
        | nil => exact containsL_nil_needle t
        | cons c cs =>
          obtain ⟨v, hv⟩ := (startsWithL_iff _ _).mp hst
          have hcfst : h = c := by
            simpa using congrArg (fun l => l.head?) hv
          have := hs c (by simp)
          rw [← hcfst] at this
          rw [this] at hp
          exact absurd hp (by simp)
      · exact hin
    · rw [List.dropWhile_cons, if_neg hp]
      exact hc

lemma containsL_reverse (l s : List Char) (h : containsL l s = true) :
    containsL l.reverse s.reverse = true := by
  rw [containsL_iff] at h ⊢
  obtain ⟨u, v, rfl⟩ := h
  exact ⟨v.reverse, u.reverse, by simp⟩

lemma containsL_stripBoth (p : Char → Bool) (s l : List Char)
    (hs : ∀ c ∈ s, p c = false) (h : containsL l s = true) :
    containsL (stripBoth p l) s = true := by
  have h1 := containsL_dropWhile p s hs l h
  have h2 := containsL_reverse _ _ h1
  have h3 := containsL_dropWhile p s.reverse (by simpa using hs) _ h2
  have h4 := containsL_reverse _ _ h3
  simpa [stripBoth] using h4

/-- An ASCII-whitespace character is fixed by `str.upper()`. -/
lemma upperAscii_of_ws (c : Char) (h : pyWs c = true) : upperAscii c = c := by
  have hc : c = ' ' ∨ c = '\t' ∨ c = '\n' ∨ c = '\x0d' ∨ c = '\x0b' ∨ c = '\x0c' := by
    simpa [pyWs] using h
  rcases hc with rfl | rfl | rfl | rfl | rfl | rfl <;> decide

/-- Splitting a `map` along an append of its image. -/
lemma map_split (f : Char → Char) :
    ∀ (l a b : List Char), l.map f = a ++ b →
      ∃ l1 l2, l = l1 ++ l2 ∧ l1.map f = a ∧ l2.map f = b := by
  intro l a
  induction a generalizing l with
  | nil => intro b h; exact ⟨[], l, rfl, rfl, by simpa using h⟩
  | cons x xs ih =>
    intro b h
    cases l with
    | nil => simp at h
    | cons c cs =>
      simp only [List.map_cons, List.cons_append, List.cons.injEq] at h
      obtain ⟨l1, l2, rfl, hm1, hm2⟩ := ih cs b h.2
      exact ⟨c :: l1, l2, rfl, by simp [h.1, hm1], hm2⟩

/-! ### Claim theorem: sentinel detection -/

/-- C4: sentinel detection is case-insensitive substring containment and is
checked before the response is treated as a literal href: any response whose
uppercased text contains `NO_NEXT_LINK` parses to the no-link value, a
response empty after stripping parses to the no-link value, and the three
example responses of the spec all parse to the no-link value — for every
current URL. -/
theorem C4_sentinel (text url : List Char) :
    (containsL (pyUpper text) sentinel = true → parseResp text url = none) ∧
    (pyStrip text = [] → parseResp text url = none) ∧
    parseResp ("no_next_link".data) url = none ∧
    parseResp ("NO_NEXT_LINK please stop".data) url = none ∧
    parseResp ("  NO_NEXT_LINK  ".data) url = none := by
  refine ⟨?_, ?_, rfl, rfl, rfl⟩
  · intro h
    rw [containsL_iff] at h
    obtain ⟨u, v, he⟩ := h
    obtain ⟨t1, t23, rfl, hu, h23⟩ := map_split upperAscii text u (sentinel ++ v)
      (by simpa [pyUpper] using he)
    obtain ⟨t2, t3, rfl, h2, h3⟩ := map_split upperAscii t23 sentinel v h23
    have hsent_ws : ∀ c ∈ sentinel, pyWs c = false := by decide
    have hnws : ∀ c ∈ t2, pyWs c = false := by
      intro c hc
      by_cases hws : pyWs c = true
      · exfalso
        have hfix : upperAscii c = c := upperAscii_of_ws c hws
        have hmem : c ∈ sentinel := by
          rw [← h2, ← hfix]
          exact List.mem_map_of_mem upperAscii hc
        rw [hsent_ws c hmem] at hws
        exact absurd hws (by simp)
      · simpa using hws
    have hct : containsL (t1 ++ (t2 ++ t3)) t2 = true := by
      rw [containsL_iff]
      exact ⟨t1, t3, by simp⟩
    have hst := containsL_stripBoth pyWs t2 (t1 ++ (t2 ++ t3)) hnws hct
    rw [containsL_iff] at hst
    obtain ⟨u', v', hsv⟩ := hst
    have hgoal : containsL (pyUpper (pyStrip (t1 ++ (t2 ++ t3)))) sentinel = true := by
      rw [containsL_iff]
      refine ⟨pyUpper u', pyUpper v', ?_⟩
      rw [pyStrip, hsv]
      simp [pyUpper, h2]
    simp [parseResp, hgoal]
  · intro h
    simp only [parseResp, h]
    rw [if_neg (by decide), if_pos (by decide)]

/-- Witness for C4 at a concrete response containing the sentinel in mixed
case, and a concrete all-whitespace response. -/
theorem C4_sentinel_witness :
    parseResp ("maybe No_Next_Link here".data) ("https://x".data) = none ∧
    parseResp ("   ".data) ("https://x".data) = none :=
  ⟨(C4_sentinel ("maybe No_Next_Link here".data) ("https://x".data)).1 (by decide),
   (C4_sentinel ("   ".data) ("https://x".data)).2.1 (by decide)⟩

/-! ### Lemmas about the duplicate-segment collapse -/

lemma getLast?_app {α : Type} (l : List α) (a : α) : (l ++ [a]).getLast? = some a :=
  List.getLast?_concat l

/-- No two adjacent equal nonempty segments. -/
def noAdjDupB : List (List Char) → Bool
  | [] => true
  | [_] => true
  | x :: y :: r => (y = [] ∨ x ≠ y) && noAdjDupB (y :: r)

/-- Unfolding lemma for one step of the collapse loop. -/
lemma normLoop_cons (acc : List (List Char)) (x : List Char) (xs : List (List Char)) :
    normLoop acc (x :: xs) =
      if acc = [] ∨ acc.getLast? ≠ some x ∨ x = [] then normLoop (acc ++ [x]) xs
      else normLoop acc xs := rfl

/-- Collapsing an adjacent duplicate of a nonempty segment equals dropping
one of the two copies first. -/
lemma normLoop_collapse (a : List Char) (ha : a ≠ []) :
    ∀ (xs : List (List Char)) (acc : List (List Char)) (ys : List (List Char)),
      normLoop acc (xs ++ a :: a :: ys) = normLoop acc (xs ++ a :: ys) := by
  intro xs
  induction xs with
  | nil =>
    intro acc ys
    rw [List.nil_append, List.nil_append]
    by_cases hc : acc = [] ∨ acc.getLast? ≠ some a ∨ a = []
    · have h' : ¬(acc ++ [a] = [] ∨ (acc ++ [a]).getLast? ≠ some a ∨ a = []) := by
        push_neg
        exact ⟨by simp, by rw [getLast?_app], ha⟩
      have h1 : normLoop acc (a :: a :: ys) = normLoop (acc ++ [a]) (a :: ys) := by
        rw [normLoop_cons, if_pos hc]
      have h2 : normLoop (acc ++ [a]) (a :: ys) = normLoop (acc ++ [a]) ys := by
        rw [normLoop_cons, if_neg h']
      have h3 : normLoop acc (a :: ys) = normLoop (acc ++ [a]) ys := by
        rw [normLoop_cons, if_pos hc]
      rw [h1, h2, h3]
    · have step : ∀ zs, normLoop acc (a :: zs) = normLoop acc zs := by
        intro zs
        rw [normLoop_cons, if_neg hc]
      rw [step, step]
  | cons x xs ih =>
    intro acc ys
    rw [List.cons_append, List.cons_append, normLoop_cons, normLoop_cons]
    by_cases hc : acc = [] ∨ acc.getLast? ≠ some x ∨ x = []
    · rw [if_pos hc, if_pos hc, ih]
    · rw [if_neg hc, if_neg hc, ih]

/-- A list with no adjacent equal nonempty segments passes through the
collapse loop unchanged. -/
lemma normLoop_self :
    ∀ (parts acc : List (List Char)), noAdjDupB parts = true →
      (∀ h, parts.head? = some h → (acc = [] ∨ acc.getLast? ≠ some h ∨ h = [])) →
      normLoop acc parts = acc ++ parts := by
  intro parts
  induction parts with
  | nil => intro acc _ _; simp [normLoop]
  | cons x xs ih =>
    intro acc hnd hhead
    have hc : acc = [] ∨ acc.getLast? ≠ some x ∨ x = [] := hhead x rfl
    simp only [normLoop, if_pos hc]
    have hnd' : noAdjDupB xs = true := by
      cases xs with
      | nil => rfl
      | cons y ys =>
        have := hnd
        simp only [noAdjDupB, Bool.and_eq_true] at this
        exact this.2
    rw [ih (acc ++ [x]) hnd' ?_]
    · simp
    · intro h hh
      cases xs with
      | nil => simp at hh
      | cons y ys =>
        simp only [List.head?_cons, Option.some.injEq] at hh
        subst hh
        have := hnd
        simp only [noAdjDupB, Bool.and_eq_true, Bool.or_eq_true, decide_eq_true_eq] at this
        rcases this.1 with hy | hxy
        · exact Or.inr (Or.inr hy)
        · refine Or.inr (Or.inl ?_)
          rw [getLast?_app]
          simpa using hxy

/-! ### Claim theorems: path-segment normalization -/

/-- C6, counterexample to the unrestricted statement: consecutive *empty*
segments (from `"///"`) are themselves immediately repeated identical path
segments, but the code's `or part == ''` clause keeps them, so the resolved
URL retains `/a///b` instead of collapsing it. -/
theorem C6_collapse_cex :
    resolvePy ("/a///b".data) ("https://s".data) = ("https://s/a///b".data) ∧
    resolvePy ("/a///b".data) ("https://s".data) ≠ ("https://s/a//b".data) := by
  constructor
  · decide
  · decide

/-- C6 (amended): normalization collapses immediately repeated identical
*nonempty* path segments (consecutive empty segments, i.e. repeated slashes,
are kept); `/guides/guides/x` against base `https://site/guides/` resolves to
`https://site/guides/x`; dropping one copy of an adjacent nonempty duplicate
does not change the collapse result; and a segment list with no adjacent
nonempty duplicates is left untouched. -/
theorem C6_collapse_amended :
    resolvePy ("/guides/guides/x".data) ("https://site/guides/".data) =
      ("https://site/guides/x".data) ∧
    (∀ (a : List Char) (xs ys : List (List Char)), a ≠ [] →
      normLoop [] (xs ++ a :: a :: ys) = normLoop [] (xs ++ a :: ys)) ∧
    (∀ parts : List (List Char), noAdjDupB parts = true → normLoop [] parts = parts) := by
  refine ⟨by decide, ?_, ?_⟩
  · intro a xs ys ha
    exact normLoop_collapse a ha xs [] ys
  · intro parts h
    have := normLoop_self parts [] h (fun _ _ => Or.inl rfl)
    simpa using this

/-- Witness for C6 (amended) at concrete segment lists. -/
theorem C6_collapse_amended_witness :
    normLoop [] [[], "g".data, "g".data, "x".data] = normLoop [] [[], "g".data, "x".data] ∧
    normLoop [] [[], "a".data, "b".data, "a".data] = [[], "a".data, "b".data, "a".data] :=
  ⟨C6_collapse_amended.2.1 ("g".data) [[]] (["x".data]) (by decide),
   C6_collapse_amended.2.2 [[], "a".data, "b".data, "a".data] (by decide)⟩

/-! ### Lemmas about re-parsing a resolved URL -/

/-- The `scheme` default argument of `urlsplit` is only a fallback: when the
URL carries its own scheme, the default is irrelevant. -/
lemma urlsplitM_default (u d : List Char) (h : (urlsplitM u []).scheme ≠ []) :
    urlsplitM u d = urlsplitM u [] := by
  cases hsp : (splitScheme (cleanUrl u)).1 with
  | none =>
    exfalso
    apply h
    simp [urlsplitM, hsp]
    rfl
  | some s =>
    simp [urlsplitM, hsp]

lemma urlparseM_default (u d : List Char) (h : (urlparseM u []).scheme ≠ []) :
    urlparseM u d = urlparseM u [] := by
  have hs : (urlsplitM u []).scheme ≠ [] := by
    simpa [urlparseM] using h
  unfold urlparseM
  rw [urlsplitM_default u d hs]

/-- `urlunsplit` output starts with `scheme:` when the scheme is nonempty. -/
lemma urlunsplitM_ne_nil (r : UrlSplitRes) (h : r.scheme ≠ []) : urlunsplitM r ≠ [] := by
  obtain ⟨c, cs, hcs⟩ := List.exists_cons_of_ne_nil h
  simp only [urlunsplitM]
  rw [if_neg h, hcs]
  split <;> split <;> simp

lemma urlunparseM_ne_nil (r : UrlParseRes) (h : r.scheme ≠ []) : urlunparseM r ≠ [] := by
  simp only [urlunparseM]
  apply urlunsplitM_ne_nil
  simpa using h

/-- A resolved URL in good shape: an absolute `http(s)` URL with a nonempty
ASCII bracket-free host, stable under parse/unparse, whose path the
duplicate-segment collapse leaves unchanged.  (The bracket/ASCII conditions
keep the model inside the fragment where CPython's `urlsplit` does not raise
`ValueError`.) -/
def wellFormedAbs (u : List Char) : Bool :=
  let p := urlparseM u []
  (p.scheme == "http".data || p.scheme == "https".data) &&
  !p.netloc.isEmpty &&
  p.netloc.all (fun c => c.toNat < 128 && !(c = '[') && !(c = ']')) &&
  (urlunparseM p == u) &&
  (joinSlash (normLoop [] (splitOnChar '/' p.path)) == p.path)

/-- A well-formed absolute URL is a fixed point of `resolve`. -/
lemma resolve_fixed_of_wellFormed (u : List Char) (h : wellFormedAbs u = true) :
    resolvePy u u = u := by
  simp only [wellFormedAbs, Bool.and_eq_true, Bool.or_eq_true, beq_iff_eq] at h
  obtain ⟨⟨⟨⟨hs, hn⟩, _hascii⟩, hrt⟩, hcol⟩ := h
  have hps : (urlparseM u []).scheme ≠ [] := by
    rcases hs with h' | h' <;> simp [h']
  have hn' : (urlparseM u []).netloc ≠ [] := by
    intro h0
    rw [h0] at hn
    simp at hn
  have hune : u ≠ [] := fun h0 => urlunparseM_ne_nil _ hps (hrt.trans h0)
  have hrel : (urlparseM u []).scheme ∈ usesRelative := by
    rcases hs with h' | h' <;> rw [h'] <;> decide
  have hnet : (urlparseM u []).scheme ∈ usesNetloc := by
    rcases hs with h' | h' <;> rw [h'] <;> decide
  have hj : urljoinM u u = u := by
    simp only [urljoinM]
    rw [if_neg hune, if_neg hune, urlparseM_default u _ hps]
    rw [if_neg (by push_neg; exact ⟨rfl, hrel⟩), if_pos ⟨hnet, hn'⟩]
    exact hrt
  have hnorm : normalizeUrl u = u := by
    simp only [normalizeUrl]
    rw [hcol]
    exact hrt
  simp only [resolvePy]
  rw [hj, hnorm]

/-! ### Claim theorems: resolve idempotence -/

/-- C5, counterexample to the unrestricted statement: `resolve(".", "")`
returns `"."` (urljoin returns the raw href untouched when the base is
empty), and re-resolving that output against itself yields `"/"`, not
`"."`. -/
theorem C5_resolve_idem_cex :
    resolvePy (resolvePy (".".data) ("".data)) (resolvePy (".".data) ("".data)) ≠
      resolvePy (".".data) ("".data) := by
  decide

/-- C5 (amended): whenever the output of `resolve(raw, base)` is a
well-formed absolute `http(s)` URL — nonempty bracket-free ASCII host,
parse/unparse-stable, path already collapsed, which holds for ordinary
crawl outputs — applying `resolve` again with that output as both raw href
and base returns it unchanged; for degenerate outputs idempotence fails
(see the counterexample). -/
theorem C5_resolve_idem_amended (raw base : List Char)
    (h : wellFormedAbs (resolvePy raw base) = true) :
    resolvePy (resolvePy raw base) (resolvePy raw base) = resolvePy raw base :=
  resolve_fixed_of_wellFormed _ h

/-- Witness for C5 (amended) on a concrete crawl-like resolution. -/
theorem C5_resolve_idem_amended_witness :
    wellFormedAbs (resolvePy ("/guides/guides/x".data) ("https://site/guides/".data)) = true ∧
    resolvePy (resolvePy ("/guides/guides/x".data) ("https://site/guides/".data))
        (resolvePy ("/guides/guides/x".data) ("https://site/guides/".data)) =
      resolvePy ("/guides/guides/x".data) ("https://site/guides/".data) :=
  ⟨by decide, C5_resolve_idem_amended ("/guides/guides/x".data) ("https://site/guides/".data)
    (by decide)⟩

end CrawlDoc
